import Mathlib

/-!
Verification of the gopherd/example component runtime against its
natural-language specification.

The example components (logger, eventsystem, auth, users, httpserver,
blockexit) are embedded directly from the Go sources under the repository.
The orchestration core (`github.com/gopherd/core`: lifecycle sequencer,
event dispatcher, config loader, dependency resolver) is an external
module whose code is not part of this repository; those parts are
modelled from the specification, and each such definition is marked
`Modelled from the spec:` in its doc comment.
-/

/-- Lifecycle phases of a component, as in the spec's state machine
(Init, Start, Shutdown, Uninit). -/
inductive Phase where
  | init
  | start
  | shutdown
  | uninit
deriving DecidableEq, Repr

/-- A component as seen by the lifecycle sequencer: for each hook, the
result of invoking it (`none` = success, `some e` = the error it returns).
A component that does not implement a hook behaves as a successful no-op,
i.e. `none`. -/
structure Component where
  initErr : Option String
  startErr : Option String
  shutdownErr : Option String
  uninitErr : Option String
deriving DecidableEq, Repr

/-- Pair each element of a list with its position, starting at `i`. -/
def withIdx (i : Nat) : List α → List (Nat × α)
  | [] => []
  | a :: rest => (i, a) :: withIdx (i + 1) rest

/-- Modelled from the spec: a fail-fast forward phase (Init or Start) of
the gopherd/core lifecycle sequencer, absent from this repository's
sources.  Hooks are invoked in declaration order starting at index `i`;
on the first error the remaining hooks are not invoked.  Returns the
indices invoked, in invocation order, and the first error with the
failing component's index. -/
def forwardRun (i : Nat) : List (Option String) → List Nat × Option (Nat × String)
  | [] => ([], none)
  | none :: rest =>
      let r := forwardRun (i + 1) rest
      (i :: r.1, r.2)
  | some e :: _ => ([i], some (i, e))

/-- Modelled from the spec: a best-effort pass (Shutdown or Uninit) of
the gopherd/core lifecycle sequencer, absent from this repository's
sources.  Every hook in the given (index, result) list is invoked in list
order regardless of earlier errors; errors are collected, never
short-circuiting. Returns the indices invoked, in invocation order, and
the collected errors. -/
def bestEffortRun : List (Nat × Option String) → List Nat × List (Nat × String)
  | [] => ([], [])
  | (i, none) :: rest =>
      let r := bestEffortRun rest
      (i :: r.1, r.2)
  | (i, some e) :: rest =>
      let r := bestEffortRun rest
      (i :: r.1, (i, e) :: r.2)

/-- Tag a list of component indices with the phase whose hooks were
invoked on them. -/
def tagPhase (l : List Nat) (p : Phase) : List (Nat × Phase) :=
  l.map (fun i => (i, p))

/-- Modelled from the spec: the full hook-invocation trace of the
gopherd/core lifecycle sequencer (absent from this repository's sources)
on a declaration sequence.  Init runs in declaration order, fail-fast;
on an Init error the already-initialized components are uninitialized in
reverse order.  Then Start runs in declaration order, fail-fast; on a
Start error the already-started components are shut down in reverse
order and all initialized components are uninitialized in reverse order.
After a successful run, teardown shuts down and then uninitializes all
components, each pass in exact reverse declaration order, best-effort. -/
def lifecycleTrace (cs : List Component) : List (Nat × Phase) :=
  let ir := forwardRun 0 (cs.map (·.initErr))
  match ir.2 with
  | some (k, _) =>
      tagPhase ir.1 .init ++
      tagPhase (bestEffortRun (withIdx 0 ((cs.map (·.uninitErr)).take k)).reverse).1 .uninit
  | none =>
      let sr := forwardRun 0 (cs.map (·.startErr))
      match sr.2 with
      | some (k, _) =>
          tagPhase ir.1 .init ++ tagPhase sr.1 .start ++
          tagPhase (bestEffortRun (withIdx 0 ((cs.map (·.shutdownErr)).take k)).reverse).1 .shutdown ++
          tagPhase (bestEffortRun (withIdx 0 (cs.map (·.uninitErr))).reverse).1 .uninit
      | none =>
          tagPhase ir.1 .init ++ tagPhase sr.1 .start ++
          tagPhase (bestEffortRun (withIdx 0 (cs.map (·.shutdownErr))).reverse).1 .shutdown ++
          tagPhase (bestEffortRun (withIdx 0 (cs.map (·.uninitErr))).reverse).1 .uninit

/-- Modelled from the spec: the per-component errors recorded during a
full best-effort teardown (Shutdown pass then Uninit pass, each in
reverse declaration order) by the gopherd/core lifecycle sequencer,
absent from this repository's sources. -/
def teardownErrors (cs : List Component) : List (Nat × String) :=
  (bestEffortRun (withIdx 0 (cs.map (·.shutdownErr))).reverse).2 ++
  (bestEffortRun (withIdx 0 (cs.map (·.uninitErr))).reverse).2

/-- The indices whose hooks of phase `p` were invoked, in invocation
order, as read off a trace. -/
def callsOf (tr : List (Nat × Phase)) (p : Phase) : List Nat :=
  (tr.filter (fun x => x.2 == p)).map Prod.fst

theorem callsOf_append (a b : List (Nat × Phase)) (p : Phase) :
    callsOf (a ++ b) p = callsOf a p ++ callsOf b p := by
  simp [callsOf]

theorem callsOf_tagPhase_self (l : List Nat) (p : Phase) :
    callsOf (tagPhase l p) p = l := by
  induction l with
  | nil => rfl
  | cons a rest ih => simp [callsOf, tagPhase] at ih ⊢ ; simpa using ih

theorem callsOf_tagPhase_ne (l : List Nat) (p q : Phase) (h : q ≠ p) :
    callsOf (tagPhase l q) p = [] := by
  simp [callsOf, tagPhase, List.filter_map, h]

theorem forwardRun_all_ok (hooks : List (Option String)) (i : Nat)
    (h : ∀ x ∈ hooks, x = none) :
    forwardRun i hooks = (List.range' i hooks.length, none) := by
  induction hooks generalizing i with
  | nil => rfl
  | cons a rest ih =>
      have ha : a = none := h a (by simp)
      subst ha
      have := ih (i + 1) (fun x hx => h x (by simp [hx]))
      simp [forwardRun, this, List.range']

theorem bestEffortRun_eq (l : List (Nat × Option String)) :
    bestEffortRun l =
      (l.map Prod.fst, l.filterMap (fun p => p.2.map (fun e => (p.1, e)))) := by
  induction l with
  | nil => rfl
  | cons a rest ih =>
      obtain ⟨i, err⟩ := a
      cases err with
      | none => simp [bestEffortRun, ih]
      | some e => simp [bestEffortRun, ih]

theorem withIdx_map_fst (l : List α) (i : Nat) :
    (withIdx i l).map Prod.fst = List.range' i l.length := by
  induction l generalizing i with
  | nil => rfl
  | cons a rest ih => simp [withIdx, List.range', ih]

theorem lifecycleTrace_forward_ok (cs : List Component)
    (h : ∀ c ∈ cs, c.initErr = none ∧ c.startErr = none) :
    lifecycleTrace cs =
      tagPhase (List.range' 0 cs.length) .init ++ tagPhase (List.range' 0 cs.length) .start ++
      tagPhase (List.range' 0 cs.length).reverse .shutdown ++
      tagPhase (List.range' 0 cs.length).reverse .uninit := by
  have hinit : forwardRun 0 (cs.map (·.initErr)) = (List.range' 0 cs.length, none) := by
    have hall : ∀ x ∈ cs.map (·.initErr), x = none := by
      intro x hx
      obtain ⟨c, hc, rfl⟩ := List.mem_map.1 hx
      exact (h c hc).1
    simpa using forwardRun_all_ok (cs.map (·.initErr)) 0 hall
  have hstart : forwardRun 0 (cs.map (·.startErr)) = (List.range' 0 cs.length, none) := by
    have hall : ∀ x ∈ cs.map (·.startErr), x = none := by
      intro x hx
      obtain ⟨c, hc, rfl⟩ := List.mem_map.1 hx
      exact (h c hc).2
    simpa using forwardRun_all_ok (cs.map (·.startErr)) 0 hall
  simp [lifecycleTrace, hinit, hstart, bestEffortRun_eq, withIdx_map_fst]

theorem withIdx_mem (l : List α) (i j : Nat) (hj : j < l.length) :
    (i + j, l.get ⟨j, hj⟩) ∈ withIdx i l := by
  induction l generalizing i j with
  | nil => simp at hj
  | cons a rest ih =>
      cases j with
      | zero => simp [withIdx]
      | succ j' =>
          have h' : j' < rest.length := by simpa using hj
          have hmem := ih (i + 1) j' h'
          simp only [withIdx, List.mem_cons]
          right
          have heq : i + (j' + 1) = i + 1 + j' := by omega
          rw [heq]
          simpa using hmem

/-- Claim C1: for every declared component sequence, the lifecycle
sequencer invokes the Init hooks and the Start hooks each in exact
declaration order, and the Shutdown hooks and then the Uninit hooks each
in the exact reverse of declaration order. -/
theorem lifecycle_calls_in_declaration_order (cs : List Component)
    (h : ∀ c ∈ cs, c.initErr = none ∧ c.startErr = none) :
    callsOf (lifecycleTrace cs) .init = List.range cs.length
    ∧ callsOf (lifecycleTrace cs) .start = List.range cs.length
    ∧ callsOf (lifecycleTrace cs) .shutdown = (List.range cs.length).reverse
    ∧ callsOf (lifecycleTrace cs) .uninit = (List.range cs.length).reverse := by
  rw [lifecycleTrace_forward_ok cs h]
  refine ⟨?_, ?_, ?_, ?_⟩ <;>
    simp [callsOf_append, callsOf_tagPhase_self, callsOf_tagPhase_ne, List.range_eq_range']

/-- Witness for C1: a concrete two-component sequence with all hooks
succeeding. -/
theorem lifecycle_calls_in_declaration_order_witness :
    callsOf (lifecycleTrace [⟨none, none, none, none⟩, ⟨none, none, none, none⟩]) .init
      = List.range 2
    ∧ callsOf (lifecycleTrace [⟨none, none, none, none⟩, ⟨none, none, none, none⟩]) .start
      = List.range 2
    ∧ callsOf (lifecycleTrace [⟨none, none, none, none⟩, ⟨none, none, none, none⟩]) .shutdown
      = (List.range 2).reverse
    ∧ callsOf (lifecycleTrace [⟨none, none, none, none⟩, ⟨none, none, none, none⟩]) .uninit
      = (List.range 2).reverse :=
  lifecycle_calls_in_declaration_order
    [⟨none, none, none, none⟩, ⟨none, none, none, none⟩] (by decide)

/-- Claim C3: teardown is best-effort: even when a component's Shutdown
or Uninit hook returns an error, every component's Shutdown and Uninit
hooks are still invoked, in exact reverse declaration order, and the
error is recorded in the teardown error report. -/
theorem teardown_is_best_effort (cs : List Component) (i : Nat) (e : String)
    (hfwd : ∀ c ∈ cs, c.initErr = none ∧ c.startErr = none)
    (hi : i < cs.length)
    (he : (cs.get ⟨i, hi⟩).shutdownErr = some e ∨ (cs.get ⟨i, hi⟩).uninitErr = some e) :
    callsOf (lifecycleTrace cs) .shutdown = (List.range cs.length).reverse
    ∧ callsOf (lifecycleTrace cs) .uninit = (List.range cs.length).reverse
    ∧ (i, e) ∈ teardownErrors cs := by
  have hw : ∀ g : Component → Option String,
      (i, g (cs.get ⟨i, hi⟩)) ∈ withIdx 0 (cs.map g) := by
    intro g
    have hi' : i < (cs.map g).length := by simpa using hi
    have := withIdx_mem (cs.map g) 0 i hi'
    simpa using this
  refine ⟨?_, ?_, ?_⟩
  · rw [lifecycleTrace_forward_ok cs hfwd]
    simp [callsOf_append, callsOf_tagPhase_self, callsOf_tagPhase_ne, List.range_eq_range']
  · rw [lifecycleTrace_forward_ok cs hfwd]
    simp [callsOf_append, callsOf_tagPhase_self, callsOf_tagPhase_ne, List.range_eq_range']
  · unfold teardownErrors
    rw [List.mem_append]
    rcases he with he | he
    · left
      rw [bestEffortRun_eq]
      refine List.mem_filterMap.2 ⟨(i, some e), ?_, rfl⟩
      rw [List.mem_reverse]
      have := hw (·.shutdownErr)
      rwa [he] at this
    · right
      rw [bestEffortRun_eq]
      refine List.mem_filterMap.2 ⟨(i, some e), ?_, rfl⟩
      rw [List.mem_reverse]
      have := hw (·.uninitErr)
      rwa [he] at this

/-- Witness for C3: a concrete two-component sequence where the second
component's Shutdown hook fails. -/
theorem teardown_is_best_effort_witness :
    callsOf (lifecycleTrace [⟨none, none, none, none⟩, ⟨none, none, some "boom", none⟩]) .shutdown
      = (List.range 2).reverse
    ∧ callsOf (lifecycleTrace [⟨none, none, none, none⟩, ⟨none, none, some "boom", none⟩]) .uninit
      = (List.range 2).reverse
    ∧ (1, "boom") ∈ teardownErrors [⟨none, none, none, none⟩, ⟨none, none, some "boom", none⟩] :=
  teardown_is_best_effort [⟨none, none, none, none⟩, ⟨none, none, some "boom", none⟩]
    1 "boom" (by decide) (by decide) (Or.inl rfl)

/-- A listener handler in the embedding: a state transformer consuming
an event and returning the new state together with the error the
listener returns (`none` = success). -/
abbrev Handler (S E : Type) := S → E → S × Option String

/-- Modelled from the spec: the gopherd/core event dispatcher (absent
from this repository's sources).  Listeners are kept with their event
key in registration order; `ordered` is the configured dispatch mode. -/
structure Dispatcher (S E : Type) where
  ordered : Bool
  listeners : List (String × Handler S E)

/-- Modelled from the spec: `event.NewDispatcher(ordered)` constructs a
dispatcher with the given ordered flag and no listeners. -/
def newDispatcher (S E : Type) (ordered : Bool) : Dispatcher S E :=
  { ordered := ordered, listeners := [] }

/-- Modelled from the spec: `AddListener` registers a listener under its
event key, after all previously registered listeners. -/
def addListener (d : Dispatcher S E) (key : String) (h : Handler S E) : Dispatcher S E :=
  { d with listeners := d.listeners ++ [(key, h)] }

/-- Registration indices of the listeners registered under `key`,
counting all registrations from index `i`. -/
def matchingIdx (i : Nat) : List (String × α) → String → List Nat
  | [], _ => []
  | (k, _) :: rest, key =>
      if k == key then i :: matchingIdx (i + 1) rest key
      else matchingIdx (i + 1) rest key

/-- The handlers registered under `key`, in registration order. -/
def handlersFor (ls : List (String × α)) (key : String) : List α :=
  (ls.filter (fun p => p.1 == key)).map Prod.snd

/-- Sequential execution of a list of handlers: each handler runs to
completion on the state left by the previous one; the first handler
returning an error stops the run and that error is the result.  Returns
the final state, the number of handlers invoked, and the error. -/
def seqRun : List (Handler S E) → S → E → S × Nat × Option String
  | [], s, _ => (s, 0, none)
  | h :: hs, s, e =>
      match h s e with
      | (s', none) =>
          let r := seqRun hs s' e
          (r.1, r.2.1 + 1, r.2.2)
      | (s', some er) => (s', 1, some er)

/-- Modelled from the spec: the ordered-mode dispatch loop of the
gopherd/core event dispatcher (absent from this repository's sources).
Walks the registration list from index `i`; listeners whose key matches
the dispatched key run synchronously in registration order, the first
error short-circuits the remainder.  Returns the final state, the
registration indices invoked in invocation order, and the error
returned to the caller. -/
def runListeners (i : Nat) :
    List (String × Handler S E) → String → S → E → S × List Nat × Option String
  | [], _, s, _ => (s, [], none)
  | (k, h) :: rest, key, s, e =>
      if k == key then
        match h s e with
        | (s', none) =>
            let r := runListeners (i + 1) rest key s' e
            (r.1, i :: r.2.1, r.2.2)
        | (s', some er) => (s', [i], some er)
      else runListeners (i + 1) rest key s e

/-- Modelled from the spec: `DispatchEvent` in ordered mode.  The
unordered concurrent mode is outside this embedding (this application
configures ordered mode). -/
def dispatchEvent (d : Dispatcher S E) (key : String) (s : S) (e : E) :
    S × List Nat × Option String :=
  runListeners 0 d.listeners key s e

theorem matchingIdx_length (ls : List (String × α)) (key : String) (i : Nat) :
    (matchingIdx i ls key).length = (handlersFor ls key).length := by
  induction ls generalizing i with
  | nil => rfl
  | cons p rest ih =>
      obtain ⟨k, h⟩ := p
      by_cases hk : (k == key) = true <;>
        simp [matchingIdx, handlersFor, List.filter_cons, hk, ih (i + 1)]

theorem matchingIdx_ge (ls : List (String × α)) (key : String) (i : Nat) :
    ∀ j ∈ matchingIdx i ls key, i ≤ j := by
  induction ls generalizing i with
  | nil => simp [matchingIdx]
  | cons p rest ih =>
      obtain ⟨k, h⟩ := p
      intro j hj
      by_cases hk : (k == key) = true
      · simp [matchingIdx, hk] at hj
        rcases hj with rfl | hj
        · exact Nat.le_refl j
        · exact Nat.le_of_succ_le (ih (i + 1) j hj)
      · simp [matchingIdx, hk] at hj
        exact Nat.le_of_succ_le (ih (i + 1) j hj)

theorem matchingIdx_sorted (ls : List (String × α)) (key : String) (i : Nat) :
    List.Sorted (· < ·) (matchingIdx i ls key) := by
  induction ls generalizing i with
  | nil => simp [matchingIdx]
  | cons p rest ih =>
      obtain ⟨k, h⟩ := p
      by_cases hk : (k == key) = true
      · simp only [matchingIdx, hk, if_true, List.sorted_cons]
        exact ⟨fun j hj => Nat.lt_of_succ_le (matchingIdx_ge rest key (i + 1) j hj),
               ih (i + 1)⟩
      · simp only [matchingIdx, hk, if_false]
        exact ih (i + 1)

theorem runListeners_eq (ls : List (String × Handler S E)) (key : String)
    (i : Nat) (s : S) (e : E) :
    runListeners i ls key s e =
      ((seqRun (handlersFor ls key) s e).1,
       (matchingIdx i ls key).take (seqRun (handlersFor ls key) s e).2.1,
       (seqRun (handlersFor ls key) s e).2.2) := by
  induction ls generalizing i s with
  | nil => rfl
  | cons p rest ih =>
      obtain ⟨k, h⟩ := p
      by_cases hk : (k == key) = true
      · rcases hh : h s e with ⟨s', err⟩
        cases err with
        | none =>
            simp [runListeners, matchingIdx, handlersFor, List.filter_cons, hk, hh,
                  seqRun, ih (i + 1) s']
        | some er =>
            simp [runListeners, matchingIdx, handlersFor, List.filter_cons, hk, hh, seqRun]
      · simp [runListeners, matchingIdx, handlersFor, List.filter_cons, hk, ih (i + 1) s]

theorem seqRun_count (hs : List (Handler S E)) (s : S) (e : E) :
    (seqRun hs s e).2.1 = hs.length ∨ ∃ er, (seqRun hs s e).2.2 = some er := by
  induction hs generalizing s with
  | nil => exact Or.inl rfl
  | cons h rest ih =>
      rcases hh : h s e with ⟨s', err⟩
      cases err with
      | none =>
          rcases ih s' with hc | ⟨er, he⟩
          · left
            simp [seqRun, hh, hc]
          · right
            exact ⟨er, by simp [seqRun, hh, he]⟩
      | some er => exact Or.inr ⟨er, by simp [seqRun, hh]⟩

/-- Claim C4: in ordered mode, for every event key and every dispatch,
the listeners registered under that key run strictly in registration
order (the invoked registration indices are sorted ascending),
synchronously within the dispatching call; either every listener under
the key runs, or the first listener returning an error short-circuits
the remainder and that error is returned to the dispatcher's caller. -/
theorem ordered_dispatch_registration_order (S E : Type) (d : Dispatcher S E)
    (key : String) (s : S) (e : E) :
    List.Sorted (· < ·) (matchingIdx 0 d.listeners key)
    ∧ (matchingIdx 0 d.listeners key).length = (handlersFor d.listeners key).length
    ∧ dispatchEvent d key s e =
        ((seqRun (handlersFor d.listeners key) s e).1,
         (matchingIdx 0 d.listeners key).take (seqRun (handlersFor d.listeners key) s e).2.1,
         (seqRun (handlersFor d.listeners key) s e).2.2)
    ∧ ((seqRun (handlersFor d.listeners key) s e).2.1 = (handlersFor d.listeners key).length
       ∨ ∃ er, (seqRun (handlersFor d.listeners key) s e).2.2 = some er) :=
  ⟨matchingIdx_sorted d.listeners key 0, matchingIdx_length d.listeners key 0,
   runListeners_eq d.listeners key 0 s e, seqRun_count (handlersFor d.listeners key) s e⟩

/-- Options of the eventsystem component: `Ordered *bool` (a missing
value in the configuration leaves the pointer nil). -/
structure EventsystemOptions where
  Ordered : Option Bool
deriving DecidableEq, Repr

/-- Embeds `eventsystemComponent.Init` from the repository: `ordered` starts as
true, is overwritten by the configured value only when the `Ordered`
option pointer is non-nil, and the dispatcher is constructed with
exactly that flag via `event.NewDispatcher(ordered)`. -/
def eventsystemInit (S E : Type) (opts : EventsystemOptions) : Dispatcher S E :=
  let ordered := match opts.Ordered with
    | none => true
    | some b => b
  newDispatcher S E ordered

/-- Claim C5: the dispatcher's ordered mode defaults to true: when the
eventsystem component's `Ordered` option is unset, Init constructs an
ordered dispatcher, and when it is set, Init constructs the dispatcher
with exactly the configured boolean. -/
theorem eventsystem_init_ordered_default (S E : Type) :
    (eventsystemInit S E ⟨none⟩).ordered = true
    ∧ ∀ b : Bool, (eventsystemInit S E ⟨some b⟩).ordered = b :=
  ⟨rfl, fun _ => rfl⟩

/-- Embeds `authapi.LoginEvent` from the repository. -/
structure LoginEvent where
  Username : String
deriving DecidableEq, Repr

/-- The event key under which login listeners register: the embedding of
the reflective type identity `loginEventType` from `authapi`. -/
def loginEventKey : String := "LoginEvent"

/-- Options of the users component (`MaxUsers int`). -/
structure UsersOptions where
  MaxUsers : Int
deriving DecidableEq, Repr

/-- State of the users component together with its log sink:
`loggedInUsers` embeds the Go `map[string]bool` as the list of usernames
mapped to true; `logs` records the log lines the component emits. -/
structure UsersState where
  loggedInUsers : List String
  logs : List String
deriving DecidableEq, Repr

/-- Setting a key to true in the embedded `map[string]bool`: adds the
username when absent, leaves the map unchanged when present. -/
def insertUser (l : List String) (u : String) : List String :=
  if u ∈ l then l else l ++ [u]

/-- Embeds `usersComponent.onLoginEvent` from the repository: logs the login,
marks the event's username as logged in, logs a warning when the number
of logged-in users exceeds MaxUsers, and returns nil. -/
def onLoginEvent (opts : UsersOptions) (s : UsersState) (e : LoginEvent) :
    UsersState × Option String :=
  let s1 : UsersState := { s with logs := s.logs ++ ["User logged in " ++ e.Username] }
  let s2 : UsersState := { s1 with loggedInUsers := insertUser s1.loggedInUsers e.Username }
  let s3 : UsersState :=
    if (s2.loggedInUsers.length : Int) > opts.MaxUsers then
      { s2 with logs := s2.logs ++ ["Warning: Too many users logged"] }
    else s2
  (s3, none)

/-- An HTTP handler's observable response: the success body written via
`w.Write`/`fmt.Fprintf`, or an `http.Error` with its status code. -/
inductive HttpResponse where
  | ok (body : String)
  | httpError (msg : String) (code : Nat)
deriving DecidableEq, Repr

/-- Embeds `usersComponent.handleProfile` from the repository. -/
def handleProfile (s : UsersState) (username : String) : HttpResponse :=
  if username = "" then .httpError "Username is required" 400
  else if username ∈ s.loggedInUsers then .ok ("Profile for user: " ++ username)
  else .httpError "User not logged in" 401

/-- Embeds `authComponent.handleLogin` from the repository: for a non-empty
username it synchronously dispatches a LoginEvent through the referenced
event dispatcher (the dispatch result is discarded, as in the source)
and then writes "Login successful"; otherwise it answers 400. -/
def handleLogin (d : Dispatcher UsersState LoginEvent) (s : UsersState)
    (username : String) : UsersState × HttpResponse :=
  if username ≠ "" then
    let r := dispatchEvent d loginEventKey s { Username := username }
    (r.1, .ok "Login successful")
  else (s, .httpError "Invalid username" 400)

/-- The dispatcher as wired in this application once `usersComponent.Start`
has run: the users component's login listener registered under the
LoginEvent key on the eventsystem dispatcher (ordered, per config.json). -/
def appDispatcher (opts : UsersOptions) : Dispatcher UsersState LoginEvent :=
  addListener (newDispatcher UsersState LoginEvent true) loginEventKey (onLoginEvent opts)

theorem onLoginEvent_snd (opts : UsersOptions) (s : UsersState) (e : LoginEvent) :
    (onLoginEvent opts s e).2 = none := by
  simp [onLoginEvent]

theorem onLoginEvent_users (opts : UsersOptions) (s : UsersState) (e : LoginEvent) :
    (onLoginEvent opts s e).1.loggedInUsers = insertUser s.loggedInUsers e.Username := by
  simp only [onLoginEvent]
  split <;> rfl

theorem mem_insertUser (l : List String) (u : String) : u ∈ insertUser l u := by
  by_cases hu : u ∈ l <;> simp [insertUser, hu]

theorem dispatch_app (opts : UsersOptions) (s : UsersState) (e : LoginEvent) :
    dispatchEvent (appDispatcher opts) loginEventKey s e
      = ((onLoginEvent opts s e).1, [0], none) := by
  have h2 := onLoginEvent_snd opts s e
  rcases ho : onLoginEvent opts s e with ⟨s', err⟩
  rw [ho] at h2
  subst h2
  simp [dispatchEvent, appDispatcher, addListener, newDispatcher, runListeners, ho]

/-- Claim C10: the users component's login listener never fails: it
returns nil and marks the event's username as logged in for every event
and every state; exceeding MaxUsers changes only the logs, never the
user map or the result, so in this application an ordered dispatch of a
LoginEvent is never short-circuited by this listener. -/
theorem users_login_listener_never_fails (opts : UsersOptions) (s : UsersState)
    (e : LoginEvent) :
    (onLoginEvent opts s e).2 = none
    ∧ (onLoginEvent opts s e).1.loggedInUsers = insertUser s.loggedInUsers e.Username
    ∧ e.Username ∈ (onLoginEvent opts s e).1.loggedInUsers
    ∧ (dispatchEvent (appDispatcher opts) loginEventKey s e).2.2 = none := by
  refine ⟨onLoginEvent_snd opts s e, onLoginEvent_users opts s e, ?_, ?_⟩
  · rw [onLoginEvent_users opts s e]
    exact mem_insertUser s.loggedInUsers e.Username
  · rw [dispatch_app opts s e]

/-- Claim C2: for every non-empty username, the auth login handler
synchronously dispatches a LoginEvent through the ordered dispatcher (in
this application the users listener, registration index 0, runs) before
writing its "Login successful" response, and a profile request for the
same username against the post-login state observes the user as logged
in (the profile branch, not the 401 branch). -/
theorem login_dispatches_then_profile_logged_in (opts : UsersOptions)
    (s : UsersState) (username : String) (h : username ≠ "") :
    (handleLogin (appDispatcher opts) s username).2 = HttpResponse.ok "Login successful"
    ∧ (dispatchEvent (appDispatcher opts) loginEventKey s ⟨username⟩).2.1 = [0]
    ∧ username ∈ (handleLogin (appDispatcher opts) s username).1.loggedInUsers
    ∧ handleProfile (handleLogin (appDispatcher opts) s username).1 username
        = HttpResponse.ok ("Profile for user: " ++ username) := by
  have hstate : (handleLogin (appDispatcher opts) s username).1
      = (onLoginEvent opts s ⟨username⟩).1 := by
    simp [handleLogin, h, dispatch_app]
  have hmem : username ∈ (handleLogin (appDispatcher opts) s username).1.loggedInUsers := by
    rw [hstate, onLoginEvent_users]
    exact mem_insertUser s.loggedInUsers username
  refine ⟨by simp [handleLogin, h], by rw [dispatch_app], hmem, ?_⟩
  simp [handleProfile, h, hmem]

/-- Witness for C2: the user "bob" logging in from an empty state with
MaxUsers = 1000, as in config.json. -/
theorem login_dispatches_then_profile_logged_in_witness :
    (("bob" : String) ≠ "")
    ∧ ((handleLogin (appDispatcher ⟨1000⟩) ⟨[], []⟩ "bob").2
        = HttpResponse.ok "Login successful"
      ∧ (dispatchEvent (appDispatcher ⟨1000⟩) loginEventKey ⟨[], []⟩ ⟨"bob"⟩).2.1 = [0]
      ∧ "bob" ∈ (handleLogin (appDispatcher ⟨1000⟩) ⟨[], []⟩ "bob").1.loggedInUsers
      ∧ handleProfile (handleLogin (appDispatcher ⟨1000⟩) ⟨[], []⟩ "bob").1 "bob"
          = HttpResponse.ok ("Profile for user: " ++ "bob")) :=
  ⟨by decide, login_dispatches_then_profile_logged_in ⟨1000⟩ ⟨[], []⟩ "bob" (by decide)⟩

/-- Options of the logger component (`JSON bool`, `Level slog.Level`,
`Output string`); slog levels are integers. -/
structure LoggerOptions where
  JSON : Bool
  Level : Int
  Output : String
deriving DecidableEq, Repr

/-- The writers the logger component supports. -/
inductive LogOutput where
  | stderr
  | stdout
  | discard
deriving DecidableEq, Repr

/-- Embeds `loggerComponent.createOutput` from the repository: a switch on the
Output option with the cases "stderr", "stdout" and "" (the discard
writer), and an "unsupported output" error for everything else. -/
def createOutput (opts : LoggerOptions) : Except String LogOutput :=
  if opts.Output = "stderr" then .ok .stderr
  else if opts.Output = "stdout" then .ok .stdout
  else if opts.Output = "" then .ok .discard
  else .error "unsupported output"

/-- The default slog handler installed by `slog.SetDefault` in
`loggerComponent.Init`: its format (JSON or text), level and writer. -/
structure LogHandler where
  json : Bool
  level : Int
  output : LogOutput
deriving DecidableEq, Repr

/-- Embeds `loggerComponent.Init` from the repository: creates the output
writer, propagating its error without installing any handler; otherwise
builds a JSON or text handler at the configured level over that writer
and installs it as the default. -/
def loggerInit (opts : LoggerOptions) : Except String LogHandler :=
  match createOutput opts with
  | .error e => .error e
  | .ok out => .ok { json := opts.JSON, level := opts.Level, output := out }

/-- Claim C9: logger Init succeeds and installs a handler exactly when
the Output option is "stderr", "stdout" or "" (the empty string
selecting the discard writer); any other value yields the "unsupported
output" error and no handler. -/
theorem logger_init_output_classification (opts : LoggerOptions) :
    ((∃ hnd, loggerInit opts = Except.ok hnd) ↔
      (opts.Output = "stderr" ∨ opts.Output = "stdout" ∨ opts.Output = ""))
    ∧ createOutput { opts with Output := "" } = Except.ok LogOutput.discard
    ∧ ((opts.Output = "stderr" ∨ opts.Output = "stdout" ∨ opts.Output = "")
        ∨ loggerInit opts = Except.error "unsupported output") := by
  refine ⟨?_, by simp [createOutput], ?_⟩ <;>
  · by_cases h1 : opts.Output = "stderr"
    · simp [loggerInit, createOutput, h1]
    · by_cases h2 : opts.Output = "stdout"
      · simp [loggerInit, createOutput, h1, h2]
      · by_cases h3 : opts.Output = ""
        · simp [loggerInit, createOutput, h1, h2, h3]
        · simp [loggerInit, createOutput, h1, h2, h3]

/-- Modelled from the spec: the ConfigLoader's line-oriented comment
pre-pass (gopherd/core, absent from this repository's sources): a line
is removed iff, after trimming leading whitespace, it begins with `//`;
every other line passes through untouched. -/
def decommentLines (ls : List String) : List String :=
  ls.filter (fun l => !(l.trimLeft.startsWith "//"))

/-- Modelled from the spec: the comment pre-pass applied to the whole
configuration text, line by line, before any structural parsing. -/
def stripComments (text : String) : String :=
  String.intercalate "\n" (decommentLines (text.splitOn "\n"))

/-- Modelled from the spec: the optional template-expansion pass of the
ConfigLoader (gopherd/core, absent from this repository's sources):
substitutes tokens via `expand` only when enabled; when disabled (the
default) the text passes through verbatim. -/
def applyTemplate (enabled : Bool) (expand : String → Except String String)
    (text : String) : Except String String :=
  if enabled then expand text else .ok text

/-- Modelled from the spec: the ConfigLoader pipeline (gopherd/core,
absent from this repository's sources): strip full-line comments, then
optionally expand templates, then decode the structured document. -/
def loadConfig (enabled : Bool) (expand : String → Except String String)
    (decode : String → Except String α) (text : String) : Except String α :=
  (applyTemplate enabled expand (stripComments text)).bind decode

/-- Claim C7: the comment pre-pass removes a line if and only if, after
trimming leading whitespace, it begins with `//`; every kept line — in
particular a line with `//` after non-whitespace content — passes
through completely untouched and in order; and the pre-pass runs before
the template stage and the structural decode of the loader. -/
theorem comment_prepass_removes_iff (ls : List String) (l : String) :
    (l ∈ decommentLines ls ↔ l ∈ ls ∧ l.trimLeft.startsWith "//" = false)
    ∧ List.Sublist (decommentLines ls) ls
    ∧ ∀ (α : Type) (enabled : Bool) (expand : String → Except String String)
        (decode : String → Except String α) (text : String),
        loadConfig enabled expand decode text
          = (applyTemplate enabled expand (stripComments text)).bind decode := by
  refine ⟨?_, List.filter_sublist ls, fun _ _ _ _ _ => rfl⟩
  simp [decommentLines, List.mem_filter]

/-- Claim C8: with template expansion disabled (the default), the
template stage returns its input verbatim for every configuration text —
in particular the literal token `\x7b\x7b.ID\x7d\x7d` embedded in a
string value — so the loader hands exactly the decommented, unexpanded
text to the decoder. -/
theorem template_disabled_passthrough (expand : String → Except String String)
    (text : String) :
    applyTemplate false expand text = Except.ok text
    ∧ applyTemplate false expand "\x7b\x7b.ID\x7d\x7d"
        = Except.ok "\x7b\x7b.ID\x7d\x7d"
    ∧ ∀ (α : Type) (decode : String → Except String α),
        loadConfig false expand decode text = decode (stripComments text) :=
  ⟨rfl, rfl, fun _ _ => rfl⟩

/-- A component declaration as decoded from the configuration. -/
structure Decl where
  Name : String
  UUID : Option String
  Refs : List (String × String)
deriving DecidableEq, Repr

/-- The UUID a declaration is addressed by: the explicit UUID field,
defaulting to the Name when absent. -/
def uuidOf (d : Decl) : String := d.UUID.getD d.Name

/-- Number of declarations in the sequence carrying the given UUID. -/
def countUUID (ds : List Decl) (t : String) : Nat :=
  (ds.filter (fun d => uuidOf d == t)).length

/-- Modelled from the spec: the UUID lookup of the dependency resolver
(gopherd/core, absent from this repository's sources): it scans the
whole declaration sequence, so a target may live at any position,
before or after the referencing declaration. -/
def findUUIDFrom (i : Nat) (t : String) : List Decl → Option Nat
  | [] => none
  | d :: rest => if uuidOf d == t then some i else findUUIDFrom (i + 1) t rest

/-- Modelled from the spec: resolution of a single Refs entry (field
label, target UUID): a target UUID duplicated among declarations is a
resolution error; a target present in the sequence resolves to that
declaration's position; a missing target is a resolution error. -/
def resolveRef (ds : List Decl) (r : String × String) : Except String (String × Nat) :=
  if countUUID ds r.2 > 1 then .error ("duplicate UUID " ++ r.2)
  else
    match findUUIDFrom 0 r.2 ds with
    | some j => .ok (r.1, j)
    | none => .error ("unresolved reference " ++ r.1 ++ " to " ++ r.2)

/-- Modelled from the spec: `Build`: every declaration's Refs entries are
resolved against the whole sequence; any failure aborts with no graph. -/
def buildGraph (ds : List Decl) : Except String (List (List (String × Nat))) :=
  ds.mapM (fun d => d.Refs.mapM (resolveRef ds))

/-- Modelled from the spec: the full service run: dependency resolution
runs to completion first, and only when it succeeds does any lifecycle
phase execute. -/
def runAppTrace (ds : List Decl) (cs : List Component) : List (Nat × Phase) :=
  match buildGraph ds with
  | .error _ => []
  | .ok _ => lifecycleTrace cs

theorem findUUIDFrom_mem (ds : List Decl) (t : String) (i : Nat)
    (hex : ∃ d ∈ ds, uuidOf d = t) :
    ∃ k, ∃ hk : k < ds.length,
      findUUIDFrom i t ds = some (i + k) ∧ uuidOf (ds.get ⟨k, hk⟩) = t := by
  induction ds generalizing i with
  | nil => exact absurd hex (by simp)
  | cons d rest ih =>
      by_cases hd : (uuidOf d == t) = true
      · refine ⟨0, by simp, ?_, by simpa using beq_iff_eq.mp hd⟩
        simp [findUUIDFrom, hd]
      · have hex' : ∃ x ∈ rest, uuidOf x = t := by
          rcases hex with ⟨x, hx, hxt⟩
          rcases List.mem_cons.1 hx with rfl | hx'
          · exact absurd (beq_iff_eq.mpr hxt) (by simpa using hd)
          · exact ⟨x, hx', hxt⟩
        obtain ⟨k, hk, hfind, hu⟩ := ih (i + 1) hex'
        refine ⟨k + 1, by simpa using Nat.succ_lt_succ hk, ?_, by simpa using hu⟩
        rw [show i + (k + 1) = i + 1 + k by omega]
        simp [findUUIDFrom, hd, hfind]

/-- Claim C6: dependency resolution is order-independent across
declarations: a Refs entry resolves successfully whenever its (unique)
target UUID exists anywhere in the declaration sequence — in particular
on a declaration later than the referencing one, since the lookup scans
the whole sequence — and no lifecycle phase executes unless resolution
of the full graph completed successfully first. -/
theorem refs_resolve_order_independent (ds : List Decl) (f t : String)
    (cs : List Component)
    (hex : ∃ d ∈ ds, uuidOf d = t) (huniq : countUUID ds t = 1) :
    (∃ j, ∃ hj : j < ds.length,
        resolveRef ds (f, t) = Except.ok (f, j) ∧ uuidOf (ds.get ⟨j, hj⟩) = t)
    ∧ (runAppTrace ds cs = [] ∨ ∃ g, buildGraph ds = Except.ok g) := by
  constructor
  · obtain ⟨k, hk, hfind, hu⟩ := findUUIDFrom_mem ds t 0 hex
    refine ⟨k, hk, ?_, hu⟩
    simp [resolveRef, huniq, hfind]
  · rcases hb : buildGraph ds with e | g
    · exact Or.inl (by simp [runAppTrace, hb])
    · exact Or.inr ⟨g, rfl⟩

/-- Witness for C6: the auth declaration (index 0) references UUID
"http" carried by the httpserver declaration at the later index 1. -/
theorem refs_resolve_order_independent_witness :
    (∃ j, ∃ hj : j <
        ([⟨"auth", none, [("HTTPServer", "http")]⟩,
          ⟨"httpserver", some "http", []⟩] : List Decl).length,
        resolveRef
          [⟨"auth", none, [("HTTPServer", "http")]⟩, ⟨"httpserver", some "http", []⟩]
          ("HTTPServer", "http") = Except.ok ("HTTPServer", j)
        ∧ uuidOf (([⟨"auth", none, [("HTTPServer", "http")]⟩,
            ⟨"httpserver", some "http", []⟩] : List Decl).get ⟨j, hj⟩) = "http")
    ∧ (runAppTrace
        [⟨"auth", none, [("HTTPServer", "http")]⟩, ⟨"httpserver", some "http", []⟩] [] = []
      ∨ ∃ g, buildGraph
          [⟨"auth", none, [("HTTPServer", "http")]⟩, ⟨"httpserver", some "http", []⟩]
          = Except.ok g) :=
  refs_resolve_order_independent
    [⟨"auth", none, [("HTTPServer", "http")]⟩, ⟨"httpserver", some "http", []⟩]
    "HTTPServer" "http" [] (by decide) (by decide)
